import Mathlib

/-!
# rawhid: terminal to USB raw-HID bridge

A shallow embedding of `main.go` and proofs about it.

Conventions of the embedding.

* A byte is a `Fin 256`; a Go `int` is an `Int` (no arithmetic of the program
  can leave the 64-bit range: the only addition is `e += 16` in `print`, with
  `e` bounded by the length of a slice).
* An `error` value is the text it prints; `nil` is `none`.
* The USB stack, the console and the scheduler are a `World`: a record of the
  answers the collaborators give. A run of the program is the list of effects
  it performs against that world.
* `log.Fatalf` is `log.Printf` followed by `os.Exit(1)`, and `os.Exit` ends the
  process at once: deferred calls are not run (Go standard library, packages
  `log` and `os`).
-/

namespace Rawhid

/-! ## Data model -/

abbrev Byte := Fin 256

abbrev Error := String

/-- The vendor identifier, `const VID = 0x16C0`. -/
def VID : Nat := 0x16C0

/-- The product identifier, `const PID = 0x0486`. -/
def PID : Nat := 0x0486

/-- The direction of an endpoint. In gousb this is `type EndpointDirection bool`. -/
abbrev EndpointDirection := Bool

/-- The constant `gousb.EndpointDirectionIn` (device to host). -/
def EndpointDirectionIn : EndpointDirection := true

/-- The constant `gousb.EndpointDirectionOut` (host to device). -/
def EndpointDirectionOut : EndpointDirection := false

/-- The fields of `gousb.EndpointDesc` that the program reads. -/
structure EndpointDesc where
  Address : Nat
  Number : Int
  Direction : EndpointDirection
  MaxPacketSize : Int
  deriving DecidableEq, Repr

/-- The zero value of `EndpointDesc`: what a named result holds until assigned. -/
def EndpointDesc.zero : EndpointDesc :=
  { Address := 0, Number := 0, Direction := false, MaxPacketSize := 0 }

/-! ## getEndpoints -/

/-- One turn of the `range` loop of `getEndpoints`: the `switch` on the direction. -/
def getEndpointsStep (acc : EndpointDesc × EndpointDesc) (epDesc : EndpointDesc) :
    EndpointDesc × EndpointDesc :=
  if epDesc.Direction = EndpointDirectionIn then (epDesc, acc.2)
  else if epDesc.Direction = EndpointDirectionOut then (acc.1, epDesc)
  else acc

/-- The function `getEndpoints`: the endpoints are given in iteration order, the
named results `in`, `out` start as zero values. -/
def getEndpoints (endpoints : List EndpointDesc) : EndpointDesc × EndpointDesc :=
  endpoints.foldl getEndpointsStep (EndpointDesc.zero, EndpointDesc.zero)

/-! ## Formatting -/

/-- Pad a digit string on the left with `'0'` up to `width` (the `0` flag of `fmt`). -/
def padZero (width : Nat) (cs : List Char) : List Char :=
  List.replicate (width - cs.length) '0' ++ cs

/-- The verb `%02x` applied to a byte: lowercase base 16, zero padded to width 2. -/
def fmt02x (d : Byte) : String :=
  String.mk (padZero 2 (Nat.toDigits 16 d.val))

/-- The verb `%04x` applied to an untyped constant. -/
def fmt04x (n : Nat) : String :=
  String.mk (padZero 4 (Nat.toDigits 16 n))

/-- The loop `for _, d := range chunk { fmt.Fprintf(&b, "%02x ", d) }` on a
builder that was just reset, followed by `b.String()`. -/
def hexLine (chunk : List Byte) : String :=
  chunk.foldl (fun b d => b ++ (fmt02x d ++ " ")) ""

/-- The slice expression `data[s:e]` for `0 ≤ s ≤ e ≤ len(data)`. -/
def slice (data : List Byte) (s e : Nat) : List Byte :=
  (data.take e).drop s

/-- What `print` did: the lines handed to `log.Print`, and whether it stopped in a
run-time panic (slice bounds out of range). -/
structure PrintOut where
  lines : List String
  panicked : Bool
  deriving DecidableEq, Repr

/-- The loop of `print`, entered with the loop variables `s` and `e`. -/
def printLoop (data : List Byte) (size : Int) (s e : Int) : PrintOut :=
  if s < size then
    let e1 := e + 16
    let e2 := if e1 > size then size else e1
    if 0 ≤ s ∧ s ≤ e2 ∧ e2 ≤ (data.length : Int) then
      let r := printLoop data size e2 e2
      { lines := hexLine (slice data s.toNat e2.toNat) :: r.lines, panicked := r.panicked }
    else
      { lines := [], panicked := true }
  else
    { lines := [], panicked := false }
termination_by (size - e).toNat + (if s < size then 1 else 0)
decreasing_by
  simp_wf
  split <;> split <;> omega

/-- The function `print`: `for s, e := 0, 0; s < size; s = e`. -/
def print (data : List Byte) (size : Int) : PrintOut :=
  printLoop data size 0 0

/-! ## Effects and runs -/

/-- An argument of a `log.Printf` or `log.Fatalf` call, kept unrendered. -/
inductive Arg
  | int (n : Int)
  | err (e : Option Error)
  | bytes (b : List Byte)
  | addr (a : Nat)
  deriving DecidableEq, Repr

/-- What the process does to the outside: calls on the USB stack, log output,
the `go` statement and the end of the process. -/
inductive Effect
  | NewContext
  | ctxClose
  | OpenDeviceWithVIDPID (vid pid : Nat)
  | devClose
  | SetAutoDetach (autodetach : Bool)
  | DefaultInterface
  | done
  | OutEndpoint (num : Int)
  | InEndpoint (num : Int)
  | goWrite
  | outWrite (p : List Byte)
  | inRead (len : Nat)
  | logPrintf (format : String) (args : List Arg)
  | logPrint (s : String)
  | panic
  | osExit (code : Nat)
  deriving DecidableEq, Repr

/-- How a piece of code stopped. `running`: it did not stop within the part of
the run that is observed. -/
inductive Status
  | running
  | exited
  | panicked
  | returned
  deriving DecidableEq, Repr

structure Run where
  trace : List Effect
  status : Status
  deriving DecidableEq, Repr

/-- The call `log.Fatalf(format, args...)`: print, then `os.Exit(1)`. -/
def fatalf (format : String) (args : List Arg) : List Effect :=
  [Effect.logPrintf format args, Effect.osExit 1]

/-- What becomes of the deferred calls of a function (latest first) when its
body stops: they run when it returns or panics, and are skipped by `os.Exit`. -/
def unwind (s : Status) (deferred : List Effect) : List Effect :=
  match s with
  | Status.running => []
  | Status.exited => []
  | Status.panicked => deferred ++ [Effect.osExit 2]
  | Status.returned => deferred ++ [Effect.osExit 0]

/-! ## The outbound relay -/

/-- What the console scanner yields: a line (`Scan` is true, `Bytes` is the line
without its end-of-line marker), or the end of the scan (`Scan` is false and
`Err` is the given error, `none` at end of input). -/
inductive ScanEvent
  | line (s : List Byte)
  | stop (err : Option Error)
  deriving DecidableEq, Repr

/-- The answer of the outbound endpoint to its `k`-th `Write`, given the payload. -/
abbrev WriteOracle := Nat → List Byte → Int × Option Error

/-- The function `write`, on the console events that arrive during the run;
`k` counts the transfers issued so far. When the events are used up the relay
is waiting for the console. -/
def write (out : WriteOracle) : Nat → List ScanEvent → Run
  | _, [] => { trace := [], status := Status.running }
  | k, ScanEvent.line s :: rest =>
    if s.length > 0 then
      let p := s.take 1
      let res := out k p
      if res.2 ≠ none ∨ res.1 ≠ 1 then
        { trace := [Effect.logPrintf "Sending byte %#02x %#08b" [Arg.bytes p, Arg.bytes p],
                    Effect.outWrite p] ++
                   fatalf "Error, %v bytes were sent: %v" [Arg.int res.1, Arg.err res.2],
          status := Status.exited }
      else
        let r := write out (k + 1) rest
        { trace := [Effect.logPrintf "Sending byte %#02x %#08b" [Arg.bytes p, Arg.bytes p],
                    Effect.outWrite p] ++ r.trace,
          status := r.status }
    else write out k rest
  | k, ScanEvent.stop err :: rest =>
    if err ≠ none then
      { trace := fatalf "IO error: %v" [Arg.err err], status := Status.exited }
    else write out k rest

/-! ## The inbound relay -/

/-- The answer of the inbound endpoint to a `Read`: the count and error it
returns and the bytes it stored at the start of the buffer. -/
structure ReadResult where
  n : Int
  err : Option Error
  data : List Byte
  deriving DecidableEq, Repr

/-- The answer of the inbound endpoint to its `k`-th `Read`. -/
abbrev ReadOracle := Nat → ReadResult

/-- The buffer after a transfer stored `data` at its start. -/
def fill (buffer data : List Byte) : List Byte :=
  (data ++ buffer.drop data.length).take buffer.length

/-- One turn of the loop of `read` on a buffer already filled by the transfer;
the status is `running` when the loop goes on. -/
def readTurn (buffer : List Byte) (res : ReadResult) : Run :=
  if res.err ≠ none then
    { trace := Effect.inRead buffer.length ::
        fatalf "Error, %v bytes were read: %v" [Arg.int res.n, Arg.err res.err],
      status := Status.exited }
  else if res.n > 0 then
    let p := print buffer res.n
    { trace := [Effect.inRead buffer.length, Effect.logPrintf "Read %v bytes" [Arg.int res.n]] ++
        p.lines.map Effect.logPrint ++ (if p.panicked then [Effect.panic] else []),
      status := if p.panicked then Status.panicked else Status.running }
  else
    { trace := [Effect.inRead buffer.length], status := Status.running }

/-- The loop of `read`, for `turns` turns, from the `k`-th transfer on. -/
def readLoop (inp : ReadOracle) : Nat → Nat → List Byte → Run
  | 0, _, _ => { trace := [], status := Status.running }
  | turns + 1, k, buffer =>
    let res := inp k
    let buffer1 := fill buffer res.data
    let r := readTurn buffer1 res
    match r.status with
    | Status.running =>
      let r1 := readLoop inp turns (k + 1) buffer1
      { trace := r.trace ++ r1.trace, status := r1.status }
    | _ => r

/-- The function `read`: `make([]byte, size)` panics on a negative size. -/
def read (inp : ReadOracle) (size : Int) (turns : Nat) : Run :=
  if size < 0 then { trace := [Effect.panic], status := Status.panicked }
  else readLoop inp turns 0 (List.replicate size.toNat 0)

/-! ## The session -/

/-- The answers of the collaborators during one run. -/
structure World where
  /-- `OpenDeviceWithVIDPID`: whether the device is non-nil, and the error. -/
  openDev : Bool × Option Error
  /-- `DefaultInterface`: the endpoints of the setting in iteration order, and the error. -/
  defaultIntf : List EndpointDesc × Option Error
  /-- `intf.OutEndpoint(num)`: the error. -/
  outEndpoint : Int → Option Error
  /-- `intf.InEndpoint(num)`: the error. -/
  inEndpoint : Int → Option Error
  stdin : List ScanEvent
  outWrite : WriteOracle
  inRead : ReadOracle
  /-- The number of turns of the inbound loop that are observed. -/
  turns : Nat
  /-- The scheduler after the `go` statement: `true` lets the goroutine perform
  its next effect, `false` the main goroutine. -/
  sched : List Bool

/-- Whether an effect ends the process. -/
def Effect.isExit : Effect → Bool
  | Effect.osExit _ => true
  | _ => false

/-- The effects of the goroutine `g` and of the main goroutine `m` in the order
the scheduler lets them happen; the process ends at the first `os.Exit`. A
goroutine with nothing left to do is waiting, and its turn is passed over. -/
def interleave : List Bool → List Effect → List Effect → List Effect
  | [], _, _ => []
  | true :: sched, e :: g, m =>
    if e.isExit then [e] else e :: interleave sched g m
  | true :: sched, [], m => interleave sched [] m
  | false :: sched, g, e :: m =>
    if e.isExit then [e] else e :: interleave sched g m
  | false :: sched, g, [] => interleave sched g []

/-- The rendered message of `log.Fatalf("Device %04x:%04x not found", VID, PID)`. -/
def deviceNotFound : String :=
  "Device " ++ fmt04x VID ++ ":" ++ fmt04x PID ++ " not found"

/-- The function `main` from `inE, err := intf.InEndpoint(in.Number)` on: what the
main goroutine does after the `go` statement, with the deferred calls registered
so far. -/
def mainRead (w : World) (in_ : EndpointDesc) (deferred : List Effect) : List Effect :=
  Effect.InEndpoint in_.Number ::
  match w.inEndpoint in_.Number with
  | some err =>
    fatalf "Error preparing IN endpoint (%v): %v" [Arg.addr in_.Address, Arg.err (some err)] ++
      unwind Status.exited deferred
  | none =>
    let r := read w.inRead in_.MaxPacketSize w.turns
    r.trace ++ unwind r.status deferred

/-- The function `main` from `in, out := getEndpoints(intf)` on, with the
deferred calls registered so far. -/
def mainClaimed (w : World) (deferred : List Effect) : List Effect :=
  let io := getEndpoints w.defaultIntf.1
  let in_ := io.1
  let out := io.2
  Effect.OutEndpoint out.Number ::
  match w.outEndpoint out.Number with
  | some err =>
    fatalf "Error preparing OUT endpoint (%v): %v" [Arg.addr out.Address, Arg.err (some err)] ++
      unwind Status.exited deferred
  | none =>
    -- go write(outE)
    Effect.goWrite ::
    interleave w.sched (write w.outWrite 0 w.stdin).trace (mainRead w in_ deferred)

/-- The function `main`: the trace of the session in the world `w`. -/
def main (w : World) : List Effect :=
  -- ctx := gousb.NewContext(); defer ctx.Close()
  Effect.NewContext :: Effect.OpenDeviceWithVIDPID VID PID ::
  if w.openDev.2 ≠ none then
    fatalf "Error listing devices: %v" [Arg.err w.openDev.2] ++
      unwind Status.exited [Effect.ctxClose]
  else if w.openDev.1 = false then
    [Effect.logPrint deviceNotFound, Effect.osExit 1] ++
      unwind Status.exited [Effect.ctxClose]
  else
    -- defer dev.Close()
    Effect.SetAutoDetach true :: Effect.DefaultInterface ::
    if w.defaultIntf.2 ≠ none then
      fatalf "Error claiming interface: %v" [Arg.err w.defaultIntf.2] ++
        unwind Status.exited [Effect.devClose, Effect.ctxClose]
    else
      -- defer done()
      mainClaimed w [Effect.done, Effect.devClose, Effect.ctxClose]



/-! ## Auxiliary definitions for the statements -/

/-- The last element of `l` that satisfies `p`, or `d` when there is none. -/
def lastWhere (p : EndpointDesc → Bool) (d : EndpointDesc) (l : List EndpointDesc) :
    EndpointDesc :=
  ((l.filter p).getLast?).getD d

/-- The lowercase hexadecimal digit of a value below 16. -/
def hexDigitLower (v : Nat) : Char :=
  ("0123456789abcdef".data).getD v '0'

/-- The two-digit lowercase hexadecimal form of a byte, as the specification
words it: the digit of the high nibble, then the digit of the low nibble. -/
def twoDigitLowerHex (d : Byte) : String :=
  String.mk [hexDigitLower (d.val / 16), hexDigitLower (d.val % 16)]

/-- The concatenation, over the bytes in order, of the two-digit lowercase
hexadecimal form followed by one space. -/
def renderBytes : List Byte → String
  | [] => ""
  | d :: ds => (twoDigitLowerHex d ++ " ") ++ renderBytes ds

/-- The lines of a dump taken together. -/
def concatLines : List String → String
  | [] => ""
  | l :: ls => l ++ concatLines ls

/-- The `k`-th group of 16 bytes of `data[0:n]`: `data[16k : min(16k+16, n)]`. -/
def chunk (data : List Byte) (n k : Nat) : List Byte :=
  slice data (16 * k) (min (16 * k + 16) n)

/-- The hex-dump lines of a trace: the strings handed to `log.Print`, in order. -/
def dumpLines : List Effect → List String
  | [] => []
  | Effect.logPrint s :: es => s :: dumpLines es
  | _ :: es => dumpLines es

/-- The payloads of the `Write` calls of a trace, in order. -/
def payloads : List Effect → List (List Byte)
  | [] => []
  | Effect.outWrite p :: es => p :: payloads es
  | _ :: es => payloads es

/-- The one-byte slice holding the first byte of each console line of length at
least 1, in order. -/
def firstBytes : List ScanEvent → List (List Byte)
  | [] => []
  | ScanEvent.line (b :: _) :: es => [b] :: firstBytes es
  | _ :: es => firstBytes es

/-! ## Example worlds -/

/-- A device with an IN endpoint 1 (address 0x81) and an OUT endpoint 2. -/
def twoEndpoints : List EndpointDesc :=
  [{ Address := 0x81, Number := 1, Direction := true, MaxPacketSize := 64 },
   { Address := 0x02, Number := 2, Direction := false, MaxPacketSize := 64 }]

/-- A world in which everything succeeds, nothing is typed and reads return no
data; the scheduler lets the main goroutine run for eight effects. -/
def quietWorld : World :=
  { openDev := (true, none)
    defaultIntf := (twoEndpoints, none)
    outEndpoint := fun _ => none
    inEndpoint := fun _ => none
    stdin := []
    outWrite := fun _ _ => (1, none)
    inRead := fun _ => { n := 0, err := none, data := [] }
    turns := 4
    sched := List.replicate 8 false }

/-- The quiet world, but the first read transfer fails. -/
def readErrorWorld : World :=
  { quietWorld with inRead := fun _ => { n := 0, err := some "transfer failed", data := [] } }

/-- The quiet world, but `A` is typed, the goroutine runs first and the write
reports `n = 0` with no error. -/
def shortWriteWorld : World :=
  { quietWorld with
    stdin := [ScanEvent.line [0x41]]
    outWrite := fun _ _ => (0, none)
    sched := List.replicate 8 true }

/-- The quiet world, but claiming the default interface fails. -/
def claimErrorWorld : World :=
  { quietWorld with defaultIntf := ([], some "access denied") }

/-- The effects the outbound relay can perform. -/
def Effect.isOutbound : Effect → Bool
  | Effect.logPrintf _ _ => true
  | Effect.outWrite _ => true
  | Effect.osExit _ => true
  | _ => false

/-- The effects the inbound relay can perform. -/
def Effect.isInbound : Effect → Bool
  | Effect.logPrintf _ _ => true
  | Effect.logPrint _ => true
  | Effect.inRead _ => true
  | Effect.panic => true
  | Effect.osExit _ => true
  | _ => false

/-- A device with an OUT endpoint only; `A` is typed and the goroutine runs
first; `InEndpoint` fails for every number. -/
def noInWorld : World :=
  { quietWorld with
    defaultIntf := ([{ Address := 0x02, Number := 2, Direction := false, MaxPacketSize := 64 }],
      none)
    inEndpoint := fun _ => some "endpoint not found"
    stdin := [ScanEvent.line [0x41]]
    sched := [true, true, false, false, false] }

/-- A device with an IN endpoint only, on a USB stack whose `OutEndpoint(0)`
succeeds. -/
def noOutWorld : World :=
  { quietWorld with
    defaultIntf := ([{ Address := 0x81, Number := 1, Direction := true, MaxPacketSize := 64 }],
      none)
    stdin := [ScanEvent.line [0x41]]
    sched := [true, true, false, false, false] }

/-- A device with both endpoints whose IN endpoint cannot be prepared; `A` is
typed and the goroutine runs first. -/
def inPrepErrorWorld : World :=
  { quietWorld with
    inEndpoint := fun _ => some "busy"
    stdin := [ScanEvent.line [0x41]]
    sched := [true, true, false, false, false] }

/-- The constant `bufio.MaxScanTokenSize`: a `bufio.Scanner` made by `NewScanner`
never grows its buffer beyond 64 KiB. -/
def MaxScanTokenSize : Nat := 64 * 1024

/-- The helper `dropCR` of `bufio.ScanLines`: the end-of-line marker is one
optional carriage return followed by the newline. -/
def dropCR (data : List Byte) : List Byte :=
  if data.getLast? = some 13 then data.dropLast else data

/-- What `bufio.NewScanner(os.Stdin)` with the default `ScanLines` yields on
console lines, each given as the bytes typed before its newline. A line that
fills the 64 KiB buffer before its newline arrives ends the scan with
`ErrTooLong`; any other line is returned without its end-of-line marker. -/
def scanConsole : List (List Byte) → List ScanEvent
  | [] => []
  | raw :: rest =>
    if raw.length ≥ MaxScanTokenSize then
      [ScanEvent.stop (some "bufio.Scanner: token too long")]
    else ScanEvent.line (dropCR raw) :: scanConsole rest

/-- The one-byte slice holding the first byte of each line of length at least 1,
in order, as the specification words it. -/
def firstByteSlices : List (List Byte) → List (List Byte)
  | [] => []
  | [] :: ls => firstByteSlices ls
  | (b :: _) :: ls => [b] :: firstByteSlices ls

/-- Whether an effect is a read transfer on the inbound endpoint. -/
def Effect.isRead : Effect → Bool
  | Effect.inRead _ => true
  | _ => false

/-- The buffer of the inbound relay after the transfers `k, …, k + i`, when it
held `buffer` before transfer `k`. -/
def bufferAfter (inp : ReadOracle) (buffer : List Byte) (k : Nat) : Nat → List Byte
  | 0 => fill buffer (inp k).data
  | i + 1 => bufferAfter inp (fill buffer (inp k).data) (k + 1) i

/-- The hex dump of the first `n` bytes of a buffer: one rendered line per group
of 16 bytes. -/
def chunkLines (buffer : List Byte) (n : Nat) : List String :=
  (List.range ((n + 15) / 16)).map (fun j => renderBytes (chunk buffer n j))

/-- The hex dump of transfer `k` of a run of the inbound relay on a buffer of
`size` bytes. -/
def transferDump (inp : ReadOracle) (size k : Nat) : List String :=
  chunkLines (bufferAfter inp (List.replicate size 0) 0 k) (inp k).n.toNat

/-! # Theorems -/

/-! ## Facts about getEndpoints -/

theorem lastWhere_nil (p : EndpointDesc → Bool) (d : EndpointDesc) :
    lastWhere p d [] = d := rfl

theorem lastWhere_cons_pos (p : EndpointDesc → Bool) (d x : EndpointDesc)
    (l : List EndpointDesc) (h : p x = true) :
    lastWhere p d (x :: l) = lastWhere p x l := by
  unfold lastWhere
  rw [List.filter_cons_of_pos h, List.getLast?_cons, Option.getD_some]

theorem lastWhere_cons_neg (p : EndpointDesc → Bool) (d x : EndpointDesc)
    (l : List EndpointDesc) (h : ¬ p x = true) :
    lastWhere p d (x :: l) = lastWhere p d l := by
  unfold lastWhere
  rw [List.filter_cons_of_neg h]

theorem foldl_getEndpointsStep (l : List EndpointDesc) (a b : EndpointDesc) :
    l.foldl getEndpointsStep (a, b) =
      (lastWhere (fun d => d.Direction == EndpointDirectionIn) a l,
       lastWhere (fun d => d.Direction == EndpointDirectionOut) b l) := by
  induction l generalizing a b with
  | nil => rfl
  | cons x xs ih =>
    rw [List.foldl_cons]
    cases hx : x.Direction with
    | true =>
      have h1 : getEndpointsStep (a, b) x = (x, b) := by
        simp [getEndpointsStep, hx, EndpointDirectionIn]
      rw [h1, ih, lastWhere_cons_pos _ _ _ _ (by simp [hx, EndpointDirectionIn]),
        lastWhere_cons_neg _ _ _ _ (by simp [hx, EndpointDirectionOut])]
    | false =>
      have h1 : getEndpointsStep (a, b) x = (a, x) := by
        simp [getEndpointsStep, hx, EndpointDirectionIn, EndpointDirectionOut]
      rw [h1, ih, lastWhere_cons_neg _ _ _ _ (by simp [hx, EndpointDirectionIn]),
        lastWhere_cons_pos _ _ _ _ (by simp [hx, EndpointDirectionOut])]

theorem lastWhere_perm_of_count_one (p : EndpointDesc → Bool) (d : EndpointDesc)
    {l l' : List EndpointDesc} (hp : l.Perm l') (h1 : l.countP p = 1) :
    lastWhere p d l = lastWhere p d l' := by
  have hlen : (l.filter p).length = 1 := by rw [← List.countP_eq_length_filter]; exact h1
  obtain ⟨x, hx⟩ := List.length_eq_one.mp hlen
  have hp' : (l'.filter p).Perm [x] := by
    rw [← hx]; exact (hp.filter p).symm
  have hx' : l'.filter p = [x] := List.perm_singleton.mp hp'
  unfold lastWhere
  rw [hx, hx']

/-- C2. For every sequence of endpoint descriptors, `getEndpoints` returns as `in`
the last descriptor in iteration order whose direction is IN and as `out` the last
one whose direction is OUT; with no descriptor of a direction the result is the
zero-valued descriptor. -/
theorem getEndpoints_last_of_each_direction (endpoints : List EndpointDesc) :
    getEndpoints endpoints =
      (((endpoints.filter (fun d => d.Direction == EndpointDirectionIn)).getLast?).getD
          EndpointDesc.zero,
       ((endpoints.filter (fun d => d.Direction == EndpointDirectionOut)).getLast?).getD
          EndpointDesc.zero) :=
  foldl_getEndpointsStep endpoints EndpointDesc.zero EndpointDesc.zero

/-- C10. For a sequence of endpoint descriptors with exactly one IN descriptor and
exactly one OUT descriptor, `getEndpoints` returns the same pair for every
permutation of the sequence. -/
theorem getEndpoints_perm_invariant (l l' : List EndpointDesc) (hp : l.Perm l')
    (hin : l.countP (fun d => d.Direction == EndpointDirectionIn) = 1)
    (hout : l.countP (fun d => d.Direction == EndpointDirectionOut) = 1) :
    getEndpoints l = getEndpoints l' := by
  unfold getEndpoints
  rw [foldl_getEndpointsStep, foldl_getEndpointsStep,
    lastWhere_perm_of_count_one _ _ hp hin, lastWhere_perm_of_count_one _ _ hp hout]

/-- A concrete instance of C10: an IN and an OUT descriptor in both orders. -/
theorem getEndpoints_perm_invariant_witness :
    getEndpoints
        [{ Address := 0x81, Number := 1, Direction := true, MaxPacketSize := 64 },
         { Address := 0x02, Number := 2, Direction := false, MaxPacketSize := 64 }] =
      getEndpoints
        [{ Address := 0x02, Number := 2, Direction := false, MaxPacketSize := 64 },
         { Address := 0x81, Number := 1, Direction := true, MaxPacketSize := 64 }] :=
  getEndpoints_perm_invariant _ _ (List.Perm.swap _ _ _) (by decide) (by decide)

set_option maxRecDepth 100000 in
theorem fmt02x_eq_twoDigitLowerHex : ∀ d : Byte, fmt02x d = twoDigitLowerHex d := by
  decide

theorem foldl_hex_eq (l : List Byte) (acc : String) :
    l.foldl (fun b d => b ++ (fmt02x d ++ " ")) acc = acc ++ renderBytes l := by
  induction l generalizing acc with
  | nil => simp [renderBytes]
  | cons d ds ih =>
    rw [List.foldl_cons, ih, renderBytes, fmt02x_eq_twoDigitLowerHex, String.append_assoc]

theorem hexLine_eq_renderBytes (l : List Byte) : hexLine l = renderBytes l := by
  unfold hexLine
  rw [foldl_hex_eq]
  simp

theorem printLoop_closed (data : List Byte) (n : Nat) (hn : n ≤ data.length) :
    ∀ (m s : Nat), n - s = m → s ≤ n →
      printLoop data (n : Int) (s : Int) (s : Int) =
        { lines := (List.range ((n - s + 15) / 16)).map
            (fun k => hexLine (slice data (s + 16 * k) (min (s + 16 * k + 16) n))),
          panicked := false } := by
  intro m
  induction m using Nat.strong_induction_on with
  | _ m ih =>
    intro s hm hs
    by_cases hlt : s < n
    · rw [printLoop]
      have h1 : (s : Int) < (n : Int) := by exact_mod_cast hlt
      simp only [if_pos h1]
      by_cases h16 : n < s + 16
      · have h2 : (s : Int) + 16 > (n : Int) := by omega
        simp only [if_pos h2]
        have h3 : 0 ≤ (s : Int) ∧ (s : Int) ≤ (n : Int) ∧ (n : Int) ≤ (data.length : Int) := by
          omega
        simp only [if_pos h3]
        rw [ih 0 (by omega) n (by omega) (le_refl n)]
        have hc : (n - s + 15) / 16 = 1 := by omega
        have hm : min (s + 16) n = n := by omega
        have hr : List.range 1 = [0] := rfl
        simp [hc, hm, hr]
      · have h2 : ¬ ((s : Int) + 16 > (n : Int)) := by omega
        simp only [if_neg h2]
        have h3 : 0 ≤ (s : Int) ∧ (s : Int) ≤ (s : Int) + 16 ∧
            (s : Int) + 16 ≤ (data.length : Int) := by omega
        simp only [if_pos h3]
        have hcast : (s : Int) + 16 = ((s + 16 : Nat) : Int) := by push_cast; rfl
        rw [hcast, ih (n - (s + 16)) (by omega) (s + 16) rfl (by omega)]
        have hc : (n - s + 15) / 16 = (n - (s + 16) + 15) / 16 + 1 := by omega
        rw [hc, List.range_succ_eq_map]
        simp only [List.map_cons, List.map_map, Int.toNat_ofNat, Nat.mul_zero, Nat.add_zero]
        have hm : min (s + 16) n = s + 16 := by omega
        rw [hm]
        congr 2
        apply List.map_congr_left
        intro k _
        simp only [Function.comp]
        congr 2 <;> omega
    · have hsn : s = n := by omega
      rw [printLoop]
      have h1 : ¬ ((s : Int) < (n : Int)) := by omega
      simp only [if_neg h1]
      have hc : (n - s + 15) / 16 = 0 := by omega
      simp [hc]

theorem print_closed (data : List Byte) (n : Nat) (hn : n ≤ data.length) :
    print data (n : Int) =
      { lines := (List.range ((n + 15) / 16)).map (fun k => renderBytes (chunk data n k)),
        panicked := false } := by
  have h := printLoop_closed data n hn n 0 rfl (Nat.zero_le n)
  unfold print
  simp only [Nat.cast_zero, Nat.sub_zero, Nat.zero_add] at h
  rw [h]
  congr 1
  apply List.map_congr_left
  intro k _
  rw [hexLine_eq_renderBytes, chunk]

theorem renderBytes_append (a b : List Byte) :
    renderBytes (a ++ b) = renderBytes a ++ renderBytes b := by
  induction a with
  | nil => simp [renderBytes]
  | cons d ds ih => simp [renderBytes, ih, String.append_assoc]

theorem concatLines_append (a b : List String) :
    concatLines (a ++ b) = concatLines a ++ concatLines b := by
  induction a with
  | nil => simp [concatLines]
  | cons d ds ih => simp [concatLines, ih, String.append_assoc]

theorem concat_chunks (data : List Byte) (n : Nat) :
    ∀ c, 16 * c < n + 16 →
      concatLines ((List.range c).map (fun k => renderBytes (chunk data n k))) =
        renderBytes (data.take (min (16 * c) n)) := by
  intro c
  induction c with
  | zero => intro _; simp [concatLines, renderBytes]
  | succ c ih =>
    intro hc
    rw [List.range_succ, List.map_append, concatLines_append, ih (by omega)]
    simp only [List.map_cons, List.map_nil, concatLines, String.append_empty]
    rw [← renderBytes_append]
    congr 1
    have h1 : min (16 * c) n = 16 * c := by omega
    have h2 : 16 * c ≤ min (16 * (c + 1)) n := by omega
    have h3 : min (16 * c + 16) n = min (16 * (c + 1)) n := by congr 1
    rw [h1, chunk, slice, h3]
    conv_rhs => rw [← List.take_append_drop (16 * c) (data.take (min (16 * (c + 1)) n))]
    rw [List.take_take, min_eq_left h2]

theorem chunk_length (data : List Byte) (n k : Nat) (hn : n ≤ data.length) :
    (chunk data n k).length = min (16 * k + 16) n - 16 * k := by
  unfold chunk slice
  rw [List.length_drop, List.length_take]
  omega

theorem dumpLines_map_logPrint (ls : List String) :
    dumpLines (ls.map Effect.logPrint) = ls := by
  induction ls with
  | nil => rfl
  | cons l ls ih => simp [dumpLines, ih]

/-- C5. For `n ≤ len(data)`, `print(data, n)` does not panic, its `k`-th line is
the concatenation over the bytes of `data[16k : min(16k+16, n)]` of the two-digit
lowercase hexadecimal form followed by a space, there is no further line, and
the lines together render exactly `data[0:n]`; `0x0A` renders as `0a `. -/
theorem print_lines_render_chunks (data : List Byte) (n : Nat) (hn : n ≤ data.length) :
    (print data (n : Int)).panicked = false ∧
    (∀ k, k < (n + 15) / 16 →
      (print data (n : Int)).lines[k]? =
        some (renderBytes (slice data (16 * k) (min (16 * k + 16) n)))) ∧
    (∀ k, (n + 15) / 16 ≤ k → (print data (n : Int)).lines[k]? = none) ∧
    concatLines (print data (n : Int)).lines = renderBytes (data.take n) ∧
    hexLine [0x0A] = "0a " := by
  rw [print_closed data n hn]
  refine ⟨rfl, ?_, ?_, ?_, by decide⟩
  · intro k hk
    simp [List.getElem?_map, List.getElem?_range hk, chunk]
  · intro k hk
    simp [List.getElem?_eq_none, hk]
  · have h := concat_chunks data n ((n + 15) / 16) (by omega)
    have hmin : min (16 * ((n + 15) / 16)) n = n := by omega
    rw [hmin] at h
    exact h

/-- The 20 bytes `0x00..0x13` give the two lines of the scenario and no third. -/
theorem print_lines_render_chunks_witness :
    (print [0, 1, 2, 3, 4, 5, 6, 7, 8, 9, 10, 11, 12, 13, 14, 15, 16, 17, 18, 19] 20).lines[0]? =
      some "00 01 02 03 04 05 06 07 08 09 0a 0b 0c 0d 0e 0f " ∧
    (print [0, 1, 2, 3, 4, 5, 6, 7, 8, 9, 10, 11, 12, 13, 14, 15, 16, 17, 18, 19] 20).lines[1]? =
      some "10 11 12 13 " ∧
    (print [0, 1, 2, 3, 4, 5, 6, 7, 8, 9, 10, 11, 12, 13, 14, 15, 16, 17, 18, 19] 20).lines[2]? =
      none :=
  have h := print_lines_render_chunks
    [0, 1, 2, 3, 4, 5, 6, 7, 8, 9, 10, 11, 12, 13, 14, 15, 16, 17, 18, 19] 20 (by decide)
  ⟨(h.2.1 0 (by decide)).trans (by decide), (h.2.1 1 (by decide)).trans (by decide),
    h.2.2.1 2 (by decide)⟩

theorem dumpLines_append (a b : List Effect) :
    dumpLines (a ++ b) = dumpLines a ++ dumpLines b := by
  induction a with
  | nil => rfl
  | cons e es ih => cases e <;> simp [dumpLines, ih]

theorem readTurn_success_dump (buffer : List Byte) (res : ReadResult) (n : Nat)
    (herr : res.err = none) (hn : res.n = (n : Int)) (hle : n ≤ buffer.length) :
    (readTurn buffer res).status = Status.running ∧
    dumpLines (readTurn buffer res).trace =
      (List.range ((n + 15) / 16)).map (fun k => renderBytes (chunk buffer n k)) := by
  unfold readTurn
  simp only [herr, ne_eq, not_true_eq_false, if_false, hn]
  by_cases h0 : (n : Int) > 0
  · simp only [if_pos h0, print_closed buffer n hle]
    refine ⟨by simp, ?_⟩
    rw [dumpLines_append, dumpLines_append, dumpLines_map_logPrint]
    simp [dumpLines]
  · have hz : n = 0 := by omega
    subst hz
    simp [dumpLines]

/-- On scanner events without a scanner error, with every write succeeding with
1 byte written, the relay does not stop and writes the first byte of each
non-empty line. -/
theorem write_payloads_of_events (out : WriteOracle) (events : List ScanEvent)
    (hout : ∀ i p, out i p = (1, none))
    (hscan : ∀ err, ScanEvent.stop (some err) ∉ events) :
    ∀ k, (write out k events).status = Status.running ∧
      payloads (write out k events).trace = firstBytes events := by
  induction events with
  | nil => intro k; exact ⟨rfl, rfl⟩
  | cons e es ih =>
    have hes : ∀ err, ScanEvent.stop (some err) ∉ es := fun err h =>
      hscan err (List.mem_cons_of_mem _ h)
    intro k
    cases e with
    | line s =>
      cases s with
      | nil => simpa [write, firstBytes] using ih hes k
      | cons b bs =>
        have h := ih hes (k + 1)
        simp [write, hout, firstBytes, payloads, h.1, h.2]
    | stop err =>
      cases err with
      | none => simpa [write, firstBytes] using ih hes k
      | some err => exact absurd (List.mem_cons_self _ _) (hscan err)

theorem write_head_not_sent_error (out : WriteOracle) (events : List ScanEvent) (n : Int)
    (err : Option Error) :
    ∀ k, (write out k events).trace[0]? ≠
      some (Effect.logPrintf "Error, %v bytes were sent: %v" [Arg.int n, Arg.err err]) := by
  induction events with
  | nil => intro k; simp [write]
  | cons e es ih =>
    intro k
    cases e with
    | line s =>
      cases s with
      | nil => simpa [write] using ih k
      | cons b bs =>
        by_cases hf : (out k [b]).2 ≠ none ∨ (out k [b]).1 ≠ 1
        · simp [write, hf]
        · simp [write, hf]
    | stop e =>
      cases e with
      | none => simpa [write] using ih k
      | some e => simp [write, fatalf]

/-- C4. On a non-empty console line the relay issues one write; it reports
`Error, n bytes were sent: err` and ends the process exactly when the result has
a non-nil error or `n ≠ 1`. In that case the trace is the send log, the write,
the error log and `os.Exit(1)`, whatever the console holds next: no further write
is issued. The result `n = 0, err = nil` is fatal. Otherwise the relay goes on
with the next console event. -/
theorem write_fatal_iff_error_or_short (out : WriteOracle) (k : Nat) (s : List Byte)
    (rest : List ScanEvent) (hs : 0 < s.length) :
    ((write out k (ScanEvent.line s :: rest)).trace[2]? =
        some (Effect.logPrintf "Error, %v bytes were sent: %v"
          [Arg.int (out k (s.take 1)).1, Arg.err (out k (s.take 1)).2]) ↔
      ((out k (s.take 1)).2 ≠ none ∨ (out k (s.take 1)).1 ≠ 1)) ∧
    (((out k (s.take 1)).2 ≠ none ∨ (out k (s.take 1)).1 ≠ 1) →
      write out k (ScanEvent.line s :: rest) =
        { trace := [Effect.logPrintf "Sending byte %#02x %#08b"
                      [Arg.bytes (s.take 1), Arg.bytes (s.take 1)],
                    Effect.outWrite (s.take 1),
                    Effect.logPrintf "Error, %v bytes were sent: %v"
                      [Arg.int (out k (s.take 1)).1, Arg.err (out k (s.take 1)).2],
                    Effect.osExit 1],
          status := Status.exited } ∧
      payloads (write out k (ScanEvent.line s :: rest)).trace = [s.take 1]) ∧
    (out k (s.take 1) = (0, none) →
      (write out k (ScanEvent.line s :: rest)).status = Status.exited ∧
      (write out k (ScanEvent.line s :: rest)).trace.getLast? = some (Effect.osExit 1)) ∧
    (¬ ((out k (s.take 1)).2 ≠ none ∨ (out k (s.take 1)).1 ≠ 1) →
      (write out k (ScanEvent.line s :: rest)).trace =
        [Effect.logPrintf "Sending byte %#02x %#08b"
            [Arg.bytes (s.take 1), Arg.bytes (s.take 1)],
          Effect.outWrite (s.take 1)] ++ (write out (k + 1) rest).trace ∧
      (write out k (ScanEvent.line s :: rest)).status = (write out (k + 1) rest).status) := by
  have hpos : s.length > 0 := hs
  refine ⟨?_, ?_, ?_, ?_⟩
  · constructor
    · intro h
      by_contra hf
      rw [write, if_pos hpos] at h
      simp only [if_neg hf] at h
      exact write_head_not_sent_error out rest _ _ (k + 1) (by simpa using h)
    · intro hf
      rw [write, if_pos hpos]
      simp only [if_pos hf, fatalf]
      rfl
  · intro hf
    rw [write, if_pos hpos]
    simp only [if_pos hf, fatalf]
    exact ⟨rfl, rfl⟩
  · intro h0
    have hf : (out k (s.take 1)).2 ≠ none ∨ (out k (s.take 1)).1 ≠ 1 := by
      right; rw [h0]; decide
    rw [write, if_pos hpos]
    simp only [if_pos hf, fatalf]
    constructor <;> first | rfl | trivial
  · intro hf
    rw [write, if_pos hpos]
    simp only [if_neg hf]
    constructor <;> first | rfl | trivial

/-- The line `A` answered with `n = 0, err = nil`: fatal after one write, and the
line `B` that follows is never sent. -/
theorem write_fatal_iff_error_or_short_witness :
    payloads (write (fun _ _ => (0, none)) 0
      [ScanEvent.line [0x41], ScanEvent.line [0x42]]).trace = [[0x41]] :=
  ((write_fatal_iff_error_or_short (fun _ _ => (0, none)) 0 [0x41] [ScanEvent.line [0x42]]
    (by decide)).2.1 (Or.inr (by decide))).2

/-- C9. When `OpenDeviceWithVIDPID` returns no device and no error, the session
logs `Device 16c0:0486 not found`, which contains `not found`, and exits with
status 1 right after the open call: it claims no interface, opens no endpoint,
starts no relay and performs no transfer. -/
theorem main_device_not_found (w : World) (h : w.openDev = (false, none)) :
    main w = [Effect.NewContext, Effect.OpenDeviceWithVIDPID 0x16C0 0x0486,
      Effect.logPrint "Device 16c0:0486 not found", Effect.osExit 1] ∧
    (∃ pre post : String, "Device 16c0:0486 not found" = pre ++ "not found" ++ post) ∧
    Effect.DefaultInterface ∉ main w ∧
    (∀ num, Effect.OutEndpoint num ∉ main w ∧ Effect.InEndpoint num ∉ main w) ∧
    Effect.goWrite ∉ main w ∧
    (∀ p, Effect.outWrite p ∉ main w) ∧
    (∀ len, Effect.inRead len ∉ main w) := by
  have hm : main w = [Effect.NewContext, Effect.OpenDeviceWithVIDPID 0x16C0 0x0486,
      Effect.logPrint "Device 16c0:0486 not found", Effect.osExit 1] := by
    have hd : deviceNotFound = "Device 16c0:0486 not found" := by decide
    simp [main, h, unwind, hd, VID, PID]
  rw [hm]
  refine ⟨rfl, ⟨"Device 16c0:0486 ", "", by decide⟩, ?_, ?_, ?_, ?_, ?_⟩ <;> simp

/-- The quiet world with no matching device. -/
theorem main_device_not_found_witness :
    main { quietWorld with openDev := (false, none) } =
      [Effect.NewContext, Effect.OpenDeviceWithVIDPID 0x16C0 0x0486,
        Effect.logPrint "Device 16c0:0486 not found", Effect.osExit 1] :=
  (main_device_not_found { quietWorld with openDev := (false, none) } rfl).1

/-- C1, the code at the failing inputs. A read error, a short write and a claim
error each end the session with `os.Exit(1)` as the last effect; the deferred
`done()`, `dev.Close()` and `ctx.Close()` are not in the trace. -/
theorem main_fatal_skips_deferred_cleanup :
    main readErrorWorld =
      [Effect.NewContext, Effect.OpenDeviceWithVIDPID 0x16C0 0x0486,
        Effect.SetAutoDetach true, Effect.DefaultInterface, Effect.OutEndpoint 2,
        Effect.goWrite, Effect.InEndpoint 1, Effect.inRead 64,
        Effect.logPrintf "Error, %v bytes were read: %v"
          [Arg.int 0, Arg.err (some "transfer failed")],
        Effect.osExit 1] ∧
    main shortWriteWorld =
      [Effect.NewContext, Effect.OpenDeviceWithVIDPID 0x16C0 0x0486,
        Effect.SetAutoDetach true, Effect.DefaultInterface, Effect.OutEndpoint 2,
        Effect.goWrite,
        Effect.logPrintf "Sending byte %#02x %#08b" [Arg.bytes [0x41], Arg.bytes [0x41]],
        Effect.outWrite [0x41],
        Effect.logPrintf "Error, %v bytes were sent: %v" [Arg.int 0, Arg.err none],
        Effect.osExit 1] ∧
    main claimErrorWorld =
      [Effect.NewContext, Effect.OpenDeviceWithVIDPID 0x16C0 0x0486,
        Effect.SetAutoDetach true, Effect.DefaultInterface,
        Effect.logPrintf "Error claiming interface: %v" [Arg.err (some "access denied")],
        Effect.osExit 1] ∧
    Effect.done ∉ main readErrorWorld ∧ Effect.devClose ∉ main readErrorWorld ∧
    Effect.ctxClose ∉ main readErrorWorld ∧
    Effect.done ∉ main shortWriteWorld ∧ Effect.devClose ∉ main shortWriteWorld ∧
    Effect.ctxClose ∉ main shortWriteWorld ∧
    Effect.devClose ∉ main claimErrorWorld ∧ Effect.ctxClose ∉ main claimErrorWorld := by
  decide

theorem mem_interleave (e : Effect) :
    ∀ (sched : List Bool) (g m : List Effect), e ∈ interleave sched g m → e ∈ g ∨ e ∈ m := by
  intro sched
  induction sched with
  | nil => intro g m h; simp [interleave] at h
  | cons b sched ih =>
    intro g m h
    cases b with
    | true =>
      cases g with
      | nil =>
        rw [interleave] at h
        exact ih [] m h
      | cons x g =>
        rw [interleave] at h
        split at h
        · simp only [List.mem_singleton] at h
          exact Or.inl (h ▸ List.mem_cons_self _ _)
        · rcases List.mem_cons.mp h with h | h
          · exact Or.inl (h ▸ List.mem_cons_self _ _)
          · rcases ih g m h with h | h
            · exact Or.inl (List.mem_cons_of_mem _ h)
            · exact Or.inr h
    | false =>
      cases m with
      | nil =>
        rw [interleave] at h
        exact ih g [] h
      | cons x m =>
        rw [interleave] at h
        split at h
        · simp only [List.mem_singleton] at h
          exact Or.inr (h ▸ List.mem_cons_self _ _)
        · rcases List.mem_cons.mp h with h | h
          · exact Or.inr (h ▸ List.mem_cons_self _ _)
          · rcases ih g m h with h | h
            · exact Or.inl h
            · exact Or.inr (List.mem_cons_of_mem _ h)

theorem write_trace_isOutbound (out : WriteOracle) (events : List ScanEvent) :
    ∀ k, ∀ e ∈ (write out k events).trace, e.isOutbound = true := by
  induction events with
  | nil => intro k e h; simp [write] at h
  | cons ev es ih =>
    intro k e h
    cases ev with
    | line s =>
      cases s with
      | nil =>
        simp only [write, List.length_nil, gt_iff_lt, lt_self_iff_false, if_false] at h
        exact ih k e h
      | cons b bs =>
        by_cases hf : (out k [b]).2 ≠ none ∨ (out k [b]).1 ≠ 1
        · simp [write, hf, fatalf] at h
          rcases h with h | h | h | h <;> subst h <;> rfl
        · simp [write, hf] at h
          rcases h with h | h | h
          · subst h; rfl
          · subst h; rfl
          · exact ih (k + 1) e h
    | stop err =>
      cases err with
      | none =>
        simp only [write, ne_eq, not_true_eq_false, if_false] at h
        exact ih k e h
      | some err =>
        simp [write, fatalf] at h
        rcases h with h | h <;> subst h <;> rfl

theorem readTurn_trace_isInbound (buffer : List Byte) (res : ReadResult) :
    ∀ e ∈ (readTurn buffer res).trace, e.isInbound = true := by
  intro e h
  unfold readTurn at h
  split at h
  · simp [fatalf] at h
    rcases h with h | h | h <;> subst h <;> rfl
  · split at h
    · rw [List.mem_append, List.mem_append] at h
      rcases h with (h | h) | h
      · simp at h
        rcases h with h | h <;> subst h <;> rfl
      · rw [List.mem_map] at h
        obtain ⟨l, _, hl⟩ := h
        rw [← hl]; rfl
      · split at h
        · simp at h; subst h; rfl
        · simp at h
    · simp at h; subst h; rfl

theorem readLoop_trace_isInbound (inp : ReadOracle) :
    ∀ (turns k : Nat) (buffer : List Byte),
      ∀ e ∈ (readLoop inp turns k buffer).trace, e.isInbound = true := by
  intro turns
  induction turns with
  | zero => intro k buffer e h; simp [readLoop] at h
  | succ t ih =>
    intro k buffer e h
    rw [readLoop] at h
    simp only at h
    split at h
    · simp only [List.mem_append] at h
      rcases h with h | h
      · exact readTurn_trace_isInbound _ _ e h
      · exact ih _ _ e h
    · exact readTurn_trace_isInbound _ _ e h

theorem read_trace_isInbound (inp : ReadOracle) (size : Int) (turns : Nat) :
    ∀ e ∈ (read inp size turns).trace, e.isInbound = true := by
  intro e h
  unfold read at h
  split at h
  · simp at h; subst h; rfl
  · exact readLoop_trace_isInbound inp _ _ _ e h

theorem unwind_mem (s : Status) (deferred : List Effect) :
    ∀ e ∈ unwind s deferred, e ∈ deferred ∨ e.isInbound = true := by
  intro e h
  cases s <;> simp [unwind] at h
  · rcases h with h | h
    · exact Or.inl h
    · subst h; exact Or.inr rfl
  · rcases h with h | h
    · exact Or.inl h
    · subst h; exact Or.inr rfl

theorem mainRead_mem (w : World) (in_ : EndpointDesc) (deferred : List Effect) :
    ∀ e ∈ mainRead w in_ deferred,
      e = Effect.InEndpoint in_.Number ∨ e.isInbound = true ∨ e ∈ deferred := by
  intro e h
  unfold mainRead at h
  rcases List.mem_cons.mp h with h | h
  · exact Or.inl h
  · right
    split at h
    · simp [fatalf, unwind] at h
      rcases h with h | h <;> subst h <;> exact Or.inl rfl
    · simp only [List.mem_append] at h
      rcases h with h | h
      · exact Or.inl (read_trace_isInbound _ _ _ e h)
      · rcases unwind_mem _ _ e h with h | h
        · exact Or.inr h
        · exact Or.inl h

/-- The shape of every trace of `main`: one of the four fatal exits before the
`go` statement, or the six effects up to the `go` statement followed by the
interleaving of the two goroutines. -/
theorem main_cases (w : World) :
    (main w = Effect.NewContext :: Effect.OpenDeviceWithVIDPID VID PID ::
      fatalf "Error listing devices: %v" [Arg.err w.openDev.2]) ∨
    (main w = [Effect.NewContext, Effect.OpenDeviceWithVIDPID VID PID,
      Effect.logPrint deviceNotFound, Effect.osExit 1]) ∨
    (main w = Effect.NewContext :: Effect.OpenDeviceWithVIDPID VID PID ::
      Effect.SetAutoDetach true :: Effect.DefaultInterface ::
      fatalf "Error claiming interface: %v" [Arg.err w.defaultIntf.2]) ∨
    (∃ err, w.outEndpoint (getEndpoints w.defaultIntf.1).2.Number = some err ∧
      main w = Effect.NewContext :: Effect.OpenDeviceWithVIDPID VID PID ::
        Effect.SetAutoDetach true :: Effect.DefaultInterface ::
        Effect.OutEndpoint (getEndpoints w.defaultIntf.1).2.Number ::
        fatalf "Error preparing OUT endpoint (%v): %v"
          [Arg.addr (getEndpoints w.defaultIntf.1).2.Address, Arg.err (some err)]) ∨
    (w.outEndpoint (getEndpoints w.defaultIntf.1).2.Number = none ∧
      main w = Effect.NewContext :: Effect.OpenDeviceWithVIDPID VID PID ::
        Effect.SetAutoDetach true :: Effect.DefaultInterface ::
        Effect.OutEndpoint (getEndpoints w.defaultIntf.1).2.Number :: Effect.goWrite ::
        interleave w.sched (write w.outWrite 0 w.stdin).trace
          (mainRead w (getEndpoints w.defaultIntf.1).1
            [Effect.done, Effect.devClose, Effect.ctxClose])) := by
  unfold main
  by_cases h1 : w.openDev.2 ≠ none
  · left; simp only [if_pos h1, unwind, List.append_nil]
  · by_cases h2 : w.openDev.1 = false
    · right; left; simp only [if_neg h1, if_pos h2, unwind, List.append_nil]
    · by_cases h3 : w.defaultIntf.2 ≠ none
      · right; right; left
        simp only [if_neg h1, if_neg h2, if_pos h3, unwind, List.append_nil]
      · right; right; right
        simp only [if_neg h1, if_neg h2, if_neg h3, mainClaimed]
        cases h4 : w.outEndpoint (getEndpoints w.defaultIntf.1).2.Number with
        | some err => left; exact ⟨err, rfl, by simp [unwind]⟩
        | none => right; exact ⟨rfl, rfl⟩

theorem lastWhere_of_none (p : EndpointDesc → Bool) (d : EndpointDesc) (l : List EndpointDesc)
    (h : ∀ x ∈ l, p x = false) : lastWhere p d l = d := by
  have hf : l.filter p = [] := by
    rw [List.filter_eq_nil_iff]
    intro x hx
    simp [h x hx]
  simp [lastWhere, hf]

theorem getEndpoints_no_out (l : List EndpointDesc)
    (h : ∀ d ∈ l, d.Direction ≠ EndpointDirectionOut) :
    (getEndpoints l).2 = EndpointDesc.zero := by
  unfold getEndpoints
  rw [foldl_getEndpointsStep]
  exact lastWhere_of_none _ _ _ (fun x hx => by simpa using h x hx)

theorem getEndpoints_no_in (l : List EndpointDesc)
    (h : ∀ d ∈ l, d.Direction ≠ EndpointDirectionIn) :
    (getEndpoints l).1 = EndpointDesc.zero := by
  unfold getEndpoints
  rw [foldl_getEndpointsStep]
  exact lastWhere_of_none _ _ _ (fun x hx => by simpa using h x hx)

theorem interleave_not_mem (e : Effect) (sched : List Bool) (g m : List Effect)
    (hg : e ∉ g) (hm : e ∉ m) : e ∉ interleave sched g m := fun h =>
  (mem_interleave e sched g m h).elim hg hm

theorem goWrite_not_mem_relays (w : World) (in_ : EndpointDesc) :
    Effect.goWrite ∉ interleave w.sched (write w.outWrite 0 w.stdin).trace
      (mainRead w in_ [Effect.done, Effect.devClose, Effect.ctxClose]) := by
  apply interleave_not_mem
  · intro h
    have := write_trace_isOutbound _ _ _ _ h
    simp [Effect.isOutbound] at this
  · intro h
    rcases mainRead_mem _ _ _ _ h with h | h | h
    · simp at h
    · simp [Effect.isInbound] at h
    · simp at h

/-- C7 fails as stated. With no IN descriptor the outbound relay is started and
writes `0x41` before `InEndpoint(0)` fails; with no OUT descriptor and an
`OutEndpoint(0)` that succeeds, both relays run and transfers are issued. -/
theorem unresolved_descriptor_starts_relay :
    (∀ d ∈ noInWorld.defaultIntf.1, d.Direction ≠ EndpointDirectionIn) ∧
    main noInWorld =
      [Effect.NewContext, Effect.OpenDeviceWithVIDPID 0x16C0 0x0486,
        Effect.SetAutoDetach true, Effect.DefaultInterface, Effect.OutEndpoint 2,
        Effect.goWrite,
        Effect.logPrintf "Sending byte %#02x %#08b" [Arg.bytes [0x41], Arg.bytes [0x41]],
        Effect.outWrite [0x41],
        Effect.InEndpoint 0,
        Effect.logPrintf "Error preparing IN endpoint (%v): %v"
          [Arg.addr 0, Arg.err (some "endpoint not found")],
        Effect.osExit 1] ∧
    (∀ d ∈ noOutWorld.defaultIntf.1, d.Direction ≠ EndpointDirectionOut) ∧
    main noOutWorld =
      [Effect.NewContext, Effect.OpenDeviceWithVIDPID 0x16C0 0x0486,
        Effect.SetAutoDetach true, Effect.DefaultInterface, Effect.OutEndpoint 0,
        Effect.goWrite,
        Effect.logPrintf "Sending byte %#02x %#08b" [Arg.bytes [0x41], Arg.bytes [0x41]],
        Effect.outWrite [0x41],
        Effect.InEndpoint 1, Effect.inRead 64, Effect.inRead 64] := by
  decide

/-- On a claimed interface with no OUT descriptor a failing `OutEndpoint(0)` ends
the session before the `go` statement; with no IN descriptor and a failing
`InEndpoint(0)` no read transfer is issued and nothing is dumped. -/
theorem main_unresolved_absences (w : World) (hdev : w.openDev = (true, none))
    (hclaim : w.defaultIntf.2 = none) :
    ((∀ d ∈ w.defaultIntf.1, d.Direction ≠ EndpointDirectionOut) →
      ∀ err, w.outEndpoint 0 = some err →
        main w =
          [Effect.NewContext, Effect.OpenDeviceWithVIDPID 0x16C0 0x0486,
            Effect.SetAutoDetach true, Effect.DefaultInterface, Effect.OutEndpoint 0,
            Effect.logPrintf "Error preparing OUT endpoint (%v): %v"
              [Arg.addr 0, Arg.err (some err)],
            Effect.osExit 1]) ∧
    ((∀ d ∈ w.defaultIntf.1, d.Direction ≠ EndpointDirectionIn) →
      ∀ err, w.inEndpoint 0 = some err →
        (∀ num, Effect.InEndpoint num ∈ main w → num = 0) ∧
        (∀ len, Effect.inRead len ∉ main w) ∧
        (∀ line, Effect.logPrint line ∉ main w)) := by
  constructor
  · intro hno err herr
    have hz := getEndpoints_no_out _ hno
    simp [main, mainClaimed, hdev, hclaim, hz, EndpointDesc.zero, herr, fatalf, unwind,
      VID, PID]
  · intro hno err herr
    have hz := getEndpoints_no_in _ hno
    have hmem : ∀ e ∈ mainRead w (getEndpoints w.defaultIntf.1).1
        [Effect.done, Effect.devClose, Effect.ctxClose],
        e = Effect.InEndpoint 0 ∨ e = Effect.logPrintf "Error preparing IN endpoint (%v): %v"
          [Arg.addr 0, Arg.err (some err)] ∨ e = Effect.osExit 1 := by
      intro e he
      simpa [mainRead, hz, EndpointDesc.zero, herr, fatalf, unwind] using he
    have hall : ∀ e ∈ main w, e.isOutbound = true ∨ e = Effect.InEndpoint 0 ∨
        e = Effect.NewContext ∨ e = Effect.OpenDeviceWithVIDPID VID PID ∨
        e = Effect.SetAutoDetach true ∨ e = Effect.DefaultInterface ∨
        e = Effect.OutEndpoint (getEndpoints w.defaultIntf.1).2.Number ∨
        e = Effect.goWrite := by
      intro e he
      have hmain : main w = Effect.NewContext :: Effect.OpenDeviceWithVIDPID VID PID ::
          Effect.SetAutoDetach true :: Effect.DefaultInterface ::
          mainClaimed w [Effect.done, Effect.devClose, Effect.ctxClose] := by
        simp [main, hdev, hclaim]
      rw [hmain] at he
      simp only [List.mem_cons] at he
      rcases he with he | he | he | he | he
      · subst he; simp
      · subst he; simp
      · subst he; simp
      · subst he; simp
      · unfold mainClaimed at he
        simp only [List.mem_cons] at he
        rcases he with he | he
        · subst he; simp
        · split at he
          · simp [fatalf, unwind] at he
            rcases he with he | he <;> subst he <;> exact Or.inl rfl
          · rcases List.mem_cons.mp he with he | he
            · subst he; simp
            · rcases mem_interleave _ _ _ _ he with he | he
              · exact Or.inl (write_trace_isOutbound _ _ _ _ he)
              · rcases hmem e he with he | he | he
                · exact Or.inr (Or.inl he)
                · subst he; exact Or.inl rfl
                · subst he; exact Or.inl rfl
    refine ⟨?_, ?_, ?_⟩
    · intro num hn
      rcases hall _ hn with h | h | h | h | h | h | h | h <;>
        simp [Effect.isOutbound] at h
      exact h
    · intro len hn
      rcases hall _ hn with h | h | h | h | h | h | h | h <;>
        simp [Effect.isOutbound] at h
    · intro line hn
      rcases hall _ hn with h | h | h | h | h | h | h | h <;>
        simp [Effect.isOutbound] at h

/-- C8 fails as stated. When the IN endpoint cannot be prepared the outbound
relay has already been started (`go write` is effect 5, `InEndpoint` effect 8)
and has written `0x41`. -/
theorem main_starts_relay_before_in_endpoint :
    main inPrepErrorWorld =
      [Effect.NewContext, Effect.OpenDeviceWithVIDPID 0x16C0 0x0486,
        Effect.SetAutoDetach true, Effect.DefaultInterface, Effect.OutEndpoint 2,
        Effect.goWrite,
        Effect.logPrintf "Sending byte %#02x %#08b" [Arg.bytes [0x41], Arg.bytes [0x41]],
        Effect.outWrite [0x41],
        Effect.InEndpoint 1,
        Effect.logPrintf "Error preparing IN endpoint (%v): %v"
          [Arg.addr 0x81, Arg.err (some "busy")],
        Effect.osExit 1] ∧
    (main inPrepErrorWorld)[5]? = some Effect.goWrite ∧
    (main inPrepErrorWorld)[8]? = some (Effect.InEndpoint 1) ∧
    Effect.goWrite ∈ main inPrepErrorWorld ∧
    Effect.outWrite [0x41] ∈ main inPrepErrorWorld := by
  decide

/-- C8 as amended. In every run the `go` statement, when it occurs, is effect 5
of the trace, right after an `OutEndpoint` call that succeeded; every
`InEndpoint` call comes after it; and when `OutEndpoint` fails the outbound relay
is never started and no outbound transfer is issued. -/
theorem main_starts_relay_after_out_endpoint (w : World) :
    (∀ i, (main w)[i]? = some Effect.goWrite →
      i = 5 ∧
      (main w)[4]? = some (Effect.OutEndpoint (getEndpoints w.defaultIntf.1).2.Number) ∧
      w.outEndpoint (getEndpoints w.defaultIntf.1).2.Number = none) ∧
    (∀ j num, (main w)[j]? = some (Effect.InEndpoint num) →
      5 < j ∧ (main w)[5]? = some Effect.goWrite) ∧
    (w.outEndpoint (getEndpoints w.defaultIntf.1).2.Number ≠ none →
      Effect.goWrite ∉ main w ∧ ∀ p, Effect.outWrite p ∉ main w) := by
  rcases main_cases w with h | h | h | ⟨err, herr, h⟩ | ⟨hok, h⟩
  · rw [h]
    refine ⟨?_, ?_, ?_⟩
    · intro i hi
      rcases i with _ | _ | _ | _ | i <;> simp [fatalf] at hi
    · intro j num hj
      rcases j with _ | _ | _ | _ | j <;> simp [fatalf] at hj
    · intro _
      simp [fatalf]
  · rw [h]
    refine ⟨?_, ?_, ?_⟩
    · intro i hi
      rcases i with _ | _ | _ | _ | i <;> simp at hi
    · intro j num hj
      rcases j with _ | _ | _ | _ | j <;> simp at hj
    · intro _
      simp
  · rw [h]
    refine ⟨?_, ?_, ?_⟩
    · intro i hi
      rcases i with _ | _ | _ | _ | _ | _ | i <;> simp [fatalf] at hi
    · intro j num hj
      rcases j with _ | _ | _ | _ | _ | _ | j <;> simp [fatalf] at hj
    · intro _
      simp [fatalf]
  · rw [h]
    refine ⟨?_, ?_, ?_⟩
    · intro i hi
      rcases i with _ | _ | _ | _ | _ | _ | _ | i <;> simp [fatalf] at hi
    · intro j num hj
      rcases j with _ | _ | _ | _ | _ | _ | _ | j <;> simp [fatalf] at hj
    · intro _
      simp [fatalf]
  · rw [h]
    refine ⟨?_, ?_, ?_⟩
    · intro i hi
      rcases i with _ | _ | _ | _ | _ | _ | i
      · simp at hi
      · simp at hi
      · simp at hi
      · simp at hi
      · simp at hi
      · exact ⟨rfl, by simp, hok⟩
      · exfalso
        simp only [List.getElem?_cons_succ] at hi
        exact goWrite_not_mem_relays w _ (List.getElem?_mem hi)
    · intro j num hj
      rcases j with _ | _ | _ | _ | _ | _ | j
      · simp at hj
      · simp at hj
      · simp at hj
      · simp at hj
      · simp at hj
      · simp at hj
      · exact ⟨by omega, by simp⟩
    · intro hne
      exact absurd hok hne

theorem scanConsole_no_error (console : List (List Byte))
    (hfit : ∀ l ∈ console, l.length < MaxScanTokenSize) :
    ∀ err, ScanEvent.stop (some err) ∉ scanConsole console := by
  induction console with
  | nil => intro err h; simp [scanConsole] at h
  | cons raw rest ih =>
    intro err h
    have h1 : ¬ raw.length ≥ MaxScanTokenSize := by
      have := hfit raw (List.mem_cons_self _ _)
      omega
    rw [scanConsole, if_neg h1] at h
    rcases List.mem_cons.mp h with h | h
    · cases h
    · exact ih (fun l hl => hfit l (List.mem_cons_of_mem _ hl)) err h

theorem firstBytes_scanConsole (console : List (List Byte))
    (hfit : ∀ l ∈ console, l.length < MaxScanTokenSize) :
    firstBytes (scanConsole console) = firstByteSlices (console.map dropCR) := by
  induction console with
  | nil => rfl
  | cons raw rest ih =>
    have h1 : ¬ raw.length ≥ MaxScanTokenSize := by
      have := hfit raw (List.mem_cons_self _ _)
      omega
    have ih' := ih (fun l hl => hfit l (List.mem_cons_of_mem _ hl))
    rw [scanConsole, if_neg h1, List.map_cons]
    cases hd : dropCR raw with
    | nil => simp [firstBytes, firstByteSlices, ih']
    | cons b bs => simp [firstBytes, firstByteSlices, ih']

/-- C3 fails as stated. A console line of 65536 bytes `A` has length at least 1,
yet the scanner fails on it and the relay exits with `IO error` without issuing
any write, although every write would succeed. -/
theorem write_long_line_not_sent :
    1 ≤ (List.replicate 65536 (0x41 : Byte)).length ∧
    firstByteSlices [List.replicate 65536 (0x41 : Byte)] = [[0x41]] ∧
    write (fun _ _ => (1, none)) 0 (scanConsole [List.replicate 65536 (0x41 : Byte)]) =
      { trace := [Effect.logPrintf "IO error: %v"
                    [Arg.err (some "bufio.Scanner: token too long")],
                  Effect.osExit 1],
        status := Status.exited } ∧
    payloads (write (fun _ _ => (1, none)) 0
      (scanConsole [List.replicate 65536 (0x41 : Byte)])).trace = [] := by
  have hlen : (List.replicate 65536 (0x41 : Byte)).length = 65536 := List.length_replicate _ _
  have hscan : scanConsole [List.replicate 65536 (0x41 : Byte)] =
      [ScanEvent.stop (some "bufio.Scanner: token too long")] := by
    rw [scanConsole, if_pos (by rw [hlen]; decide)]
  have hfirst : firstByteSlices [List.replicate 65536 (0x41 : Byte)] = [[0x41]] := by
    rw [show (65536 : Nat) = 65535 + 1 from rfl, List.replicate_succ]
    rfl
  refine ⟨by rw [hlen]; decide, hfirst, ?_, ?_⟩
  · rw [hscan]; rfl
  · rw [hscan]; rfl

/-- C3 as amended. For console lines that each fit the scanner (fewer than 65536
bytes before the newline), with every write succeeding with 1 byte written, the
relay does not stop and the payloads it writes are, in order, the one-byte slices
holding the first byte of each line that has length at least 1 once its
end-of-line marker is dropped: an empty line issues no transfer and the bytes
after the first do not matter. -/
theorem write_payloads_first_bytes (out : WriteOracle) (console : List (List Byte))
    (hout : ∀ i p, out i p = (1, none))
    (hfit : ∀ l ∈ console, l.length < MaxScanTokenSize) :
    ∀ k, (write out k (scanConsole console)).status = Status.running ∧
      payloads (write out k (scanConsole console)).trace =
        firstByteSlices (console.map dropCR) := by
  intro k
  have h := write_payloads_of_events out (scanConsole console) hout
    (scanConsole_no_error console hfit) k
  rw [firstBytes_scanConsole console hfit] at h
  exact h

/-- The console line `A` issues exactly one write of the single byte `0x41`. -/
theorem write_payloads_first_bytes_witness :
    payloads (write (fun _ _ => (1, none)) 0 (scanConsole [[0x41]])).trace = [[0x41]] :=
  ((write_payloads_first_bytes (fun _ _ => (1, none)) [[0x41]]
    (fun _ _ => rfl) (by decide)) 0).2.trans (by decide)

theorem fill_length (buffer data : List Byte) : (fill buffer data).length = buffer.length := by
  unfold fill
  rw [List.length_take, List.length_append, List.length_drop]
  omega

theorem bufferAfter_length (inp : ReadOracle) :
    ∀ (i k : Nat) (buffer : List Byte), (bufferAfter inp buffer k i).length = buffer.length := by
  intro i
  induction i with
  | zero => intro k buffer; exact fill_length _ _
  | succ i ih => intro k buffer; rw [bufferAfter, ih, fill_length]

theorem countP_isRead_map_logPrint (ls : List String) :
    (ls.map Effect.logPrint).countP Effect.isRead = 0 := by
  induction ls with
  | nil => rfl
  | cons l ls ih => simp [List.countP_cons, ih, Effect.isRead]

theorem readTurn_success_reads (buffer : List Byte) (res : ReadResult) (n : Nat)
    (herr : res.err = none) (hn : res.n = (n : Int)) (hle : n ≤ buffer.length) :
    (readTurn buffer res).trace.countP Effect.isRead = 1 := by
  unfold readTurn
  simp only [herr, ne_eq, not_true_eq_false, if_false, hn]
  by_cases h0 : (n : Int) > 0
  · simp only [if_pos h0, print_closed buffer n hle]
    rw [List.countP_append, List.countP_append, countP_isRead_map_logPrint]
    simp [List.countP_cons, Effect.isRead]
  · simp only [if_neg h0]
    simp [List.countP_cons, Effect.isRead]

theorem readLoop_success (inp : ReadOracle) :
    ∀ (turns k : Nat) (buffer : List Byte),
      (∀ i < turns, (inp (k + i)).err = none ∧ 0 ≤ (inp (k + i)).n ∧
        (inp (k + i)).n ≤ (buffer.length : Int)) →
      (readLoop inp turns k buffer).status = Status.running ∧
      (readLoop inp turns k buffer).trace.countP Effect.isRead = turns ∧
      dumpLines (readLoop inp turns k buffer).trace =
        ((List.range turns).map
          (fun i => chunkLines (bufferAfter inp buffer k i) (inp (k + i)).n.toNat)).flatten := by
  intro turns
  induction turns with
  | zero => intro k buffer _; exact ⟨rfl, rfl, rfl⟩
  | succ t ih =>
    intro k buffer hok
    obtain ⟨herr, h0, hle⟩ := hok 0 (Nat.succ_pos t)
    simp only [Nat.add_zero] at herr h0 hle
    have hn : (inp k).n = (((inp k).n.toNat : Nat) : Int) := (Int.toNat_of_nonneg h0).symm
    have hle' : (inp k).n.toNat ≤ (fill buffer (inp k).data).length := by
      rw [fill_length]; omega
    obtain ⟨hst, hd⟩ := readTurn_success_dump (fill buffer (inp k).data) (inp k)
      (inp k).n.toNat herr hn hle'
    have hrd := readTurn_success_reads (fill buffer (inp k).data) (inp k)
      (inp k).n.toNat herr hn hle'
    have hok' : ∀ i < t, (inp (k + 1 + i)).err = none ∧ 0 ≤ (inp (k + 1 + i)).n ∧
        (inp (k + 1 + i)).n ≤ ((fill buffer (inp k).data).length : Int) := by
      intro i hi
      have h := hok (i + 1) (Nat.succ_lt_succ hi)
      have he : k + 1 + i = k + (i + 1) := by omega
      rw [he, fill_length]
      exact h
    obtain ⟨ist, ird, idl⟩ := ih (k + 1) (fill buffer (inp k).data) hok'
    rw [readLoop]
    simp only [hst]
    refine ⟨ist, ?_, ?_⟩
    · rw [List.countP_append, hrd, ird]; omega
    · rw [dumpLines_append, hd, idl, List.range_succ_eq_map, List.map_cons, List.flatten_cons,
        List.map_map]
      congr 1
      congr 1
      apply List.map_congr_left
      intro i _
      simp only [Function.comp, bufferAfter]
      have he : k + 1 + i = k + (i + 1) := by omega
      rw [he]

theorem chunkLines_shape (buffer : List Byte) (n : Nat) (hle : n ≤ buffer.length) :
    ((chunkLines buffer n).length : Int) = ⌈(n : ℚ) / 16⌉ ∧
    (n = 0 → chunkLines buffer n = []) ∧
    ∀ j, j < (chunkLines buffer n).length →
      ∃ bytes : List Byte,
        (chunkLines buffer n)[j]? = some (renderBytes bytes) ∧
        bytes = slice buffer (16 * j) (min (16 * j + 16) n) ∧
        bytes.length =
          if j + 1 < (chunkLines buffer n).length then 16
          else if n % 16 = 0 then 16 else n % 16 := by
  unfold chunkLines
  simp only [List.length_map, List.length_range]
  refine ⟨?_, ?_, ?_⟩
  · have h1 : (n + 15) / 16 * 16 < n + 16 := by omega
    have h2 : n ≤ (n + 15) / 16 * 16 := by omega
    generalize (n + 15) / 16 = c at h1 h2
    have h1q : (c : ℚ) * 16 < (n : ℚ) + 16 := by exact_mod_cast h1
    have h2q : (n : ℚ) ≤ (c : ℚ) * 16 := by exact_mod_cast h2
    symm
    rw [Int.ceil_eq_iff]
    constructor
    · rw [lt_div_iff₀ (by norm_num)]
      push_cast
      linarith
    · rw [div_le_iff₀ (by norm_num)]
      push_cast
      linarith
  · intro h0
    subst h0
    rfl
  · intro j hj
    refine ⟨chunk buffer n j, ?_, rfl, ?_⟩
    · simp [List.getElem?_map, List.getElem?_range hj]
    · rw [chunk_length buffer n j hle]
      split_ifs <;> omega

/-- C6. In a run of the inbound relay `read` on a buffer of `size` bytes in which
the observed transfers succeed with sizes within the buffer, the relay goes on,
issues one read per turn, and the hex-dump lines it emits are, transfer after
transfer, those of each transfer; for a transfer of size `n` their number is
`ceil(n / 16)` (none for `n = 0`), every line but the last renders exactly 16
bytes of the buffer and the last renders `n mod 16` bytes, or 16 when `n` is a
nonzero multiple of 16. -/
theorem read_dump_line_count (inp : ReadOracle) (size turns : Nat)
    (hok : ∀ k < turns, (inp k).err = none ∧ 0 ≤ (inp k).n ∧ (inp k).n ≤ (size : Int)) :
    (read inp (size : Int) turns).status = Status.running ∧
    (read inp (size : Int) turns).trace.countP Effect.isRead = turns ∧
    dumpLines (read inp (size : Int) turns).trace =
      ((List.range turns).map (transferDump inp size)).flatten ∧
    ∀ k, k < turns →
      ((transferDump inp size k).length : Int) = ⌈((inp k).n : ℚ) / 16⌉ ∧
      ((inp k).n = 0 → transferDump inp size k = []) ∧
      ∀ j, j < (transferDump inp size k).length →
        ∃ bytes : List Byte,
          (transferDump inp size k)[j]? = some (renderBytes bytes) ∧
          bytes = slice (bufferAfter inp (List.replicate size 0) 0 k) (16 * j)
            (min (16 * j + 16) (inp k).n.toNat) ∧
          bytes.length =
            if j + 1 < (transferDump inp size k).length then 16
            else if (inp k).n.toNat % 16 = 0 then 16 else (inp k).n.toNat % 16 := by
  have hsz : ¬ ((size : Int) < 0) := by omega
  have hloop := readLoop_success inp turns 0 (List.replicate size 0) (fun i hi => by
    have h := hok i hi
    rw [Nat.zero_add, List.length_replicate]
    exact h)
  have hread : read inp (size : Int) turns = readLoop inp turns 0 (List.replicate size 0) := by
    unfold read
    rw [if_neg hsz, Int.toNat_ofNat]
  rw [hread]
  refine ⟨hloop.1, hloop.2.1, ?_, ?_⟩
  · rw [hloop.2.2]
    congr 1
    apply List.map_congr_left
    intro i _
    rw [Nat.zero_add]
    rfl
  · intro k hk
    obtain ⟨_, h0, hle⟩ := hok k hk
    have hle' : (inp k).n.toNat ≤ (bufferAfter inp (List.replicate size 0) 0 k).length := by
      rw [bufferAfter_length, List.length_replicate]; omega
    have hs := chunkLines_shape (bufferAfter inp (List.replicate size 0) 0 k)
      (inp k).n.toNat hle'
    have hq : (((inp k).n.toNat : Nat) : ℚ) = ((inp k).n : ℚ) := by
      have : (((inp k).n.toNat : Nat) : Int) = (inp k).n := Int.toNat_of_nonneg h0
      exact_mod_cast this
    rw [hq] at hs
    refine ⟨hs.1, ?_, hs.2.2⟩
    intro hz
    apply hs.2.1
    rw [hz]
    rfl

/-- A run of two turns on a 64-byte buffer: a transfer of the 20 bytes
`0x00..0x13`, then a transfer of no bytes. The relay emits the two lines of the
scenario and nothing for the empty transfer. -/
theorem read_dump_line_count_witness :
    dumpLines (read (fun k => if k = 0 then
        { n := 20, err := none,
          data := [0, 1, 2, 3, 4, 5, 6, 7, 8, 9, 10, 11, 12, 13, 14, 15, 16, 17, 18, 19] }
        else { n := 0, err := none, data := [] }) 64 2).trace =
      ["00 01 02 03 04 05 06 07 08 09 0a 0b 0c 0d 0e 0f ", "10 11 12 13 "] :=
  (read_dump_line_count (fun k => if k = 0 then
        { n := 20, err := none,
          data := [0, 1, 2, 3, 4, 5, 6, 7, 8, 9, 10, 11, 12, 13, 14, 15, 16, 17, 18, 19] }
        else { n := 0, err := none, data := [] }) 64 2
    (by decide)).2.2.1.trans (by decide)

theorem isExit_eq_osExit (e : Effect) (h : e.isExit = true) : ∃ code, e = Effect.osExit code := by
  cases e <;> simp [Effect.isExit] at h
  exact ⟨_, rfl⟩

theorem getLast?_cons_of_some (e x : Effect) (l : List Effect) (h : l.getLast? = some x) :
    (e :: l).getLast? = some x := by
  cases l with
  | nil => simp at h
  | cons y ys => rw [List.getLast?_cons_cons]; exact h

/-- When the main goroutine's remaining effects end in `os.Exit` and the
scheduler gives it at least as many turns as it has effects left, the process
ends: the trace ends in an `os.Exit`, of whichever goroutine exits first. -/
theorem interleave_ends_in_exit :
    ∀ (sched : List Bool) (g m : List Effect) (code : Nat),
      m.getLast? = some (Effect.osExit code) → m.length ≤ sched.count false →
      ∃ c, (interleave sched g m).getLast? = some (Effect.osExit c) := by
  intro sched
  induction sched with
  | nil =>
    intro g m code hm hlen
    cases m with
    | nil => simp at hm
    | cons e m => simp at hlen
  | cons b sched ih =>
    intro g m code hm hlen
    cases b with
    | true =>
      have hlen' : m.length ≤ sched.count false := by simpa using hlen
      cases g with
      | nil =>
        rw [interleave]
        exact ih [] m code hm hlen'
      | cons x g =>
        rw [interleave]
        split
        · rename_i hx
          obtain ⟨c, hc⟩ := isExit_eq_osExit x hx
          exact ⟨c, by rw [hc]; rfl⟩
        · obtain ⟨c, hc⟩ := ih g m code hm hlen'
          exact ⟨c, getLast?_cons_of_some _ _ _ hc⟩
    | false =>
      cases m with
      | nil => simp at hm
      | cons x m =>
        rw [interleave]
        split
        · rename_i hx
          obtain ⟨c, hc⟩ := isExit_eq_osExit x hx
          exact ⟨c, by rw [hc]; rfl⟩
        · rename_i hx
          have hm' : m.getLast? = some (Effect.osExit code) := by
            cases m with
            | nil =>
              simp at hm
              rw [hm] at hx
              simp [Effect.isExit] at hx
            | cons y ys => rw [List.getLast?_cons_cons] at hm; exact hm
          have hlen' : m.length ≤ sched.count false := by
            simp at hlen
            omega
          obtain ⟨c, hc⟩ := ih g m code hm' hlen'
          exact ⟨c, getLast?_cons_of_some _ _ _ hc⟩

/-- C7 as amended. On a claimed interface with no OUT descriptor `main` asks for
`OutEndpoint(0)`, and when that call fails the session ends there: no relay is
started and no transfer is issued. With no IN descriptor `main` asks for
`InEndpoint(0)` as the first effect of the main goroutine after the `go`
statement; when that call fails the main goroutine logs the error and calls
`os.Exit(1)`, so that the process ends as soon as the scheduler has given the
main goroutine its three turns, no read transfer is issued and nothing is
dumped; the relay started before may have written. -/
theorem main_unresolved_descriptor (w : World) (hdev : w.openDev = (true, none))
    (hclaim : w.defaultIntf.2 = none) :
    ((∀ d ∈ w.defaultIntf.1, d.Direction ≠ EndpointDirectionOut) →
      ∀ err, w.outEndpoint 0 = some err →
        main w =
          [Effect.NewContext, Effect.OpenDeviceWithVIDPID 0x16C0 0x0486,
            Effect.SetAutoDetach true, Effect.DefaultInterface, Effect.OutEndpoint 0,
            Effect.logPrintf "Error preparing OUT endpoint (%v): %v"
              [Arg.addr 0, Arg.err (some err)],
            Effect.osExit 1]) ∧
    ((∀ d ∈ w.defaultIntf.1, d.Direction ≠ EndpointDirectionIn) →
      ∀ err, w.inEndpoint 0 = some err →
        (∀ num, Effect.InEndpoint num ∈ main w → num = 0) ∧
        (∀ len, Effect.inRead len ∉ main w) ∧
        (∀ line, Effect.logPrint line ∉ main w) ∧
        (∀ oerr, w.outEndpoint (getEndpoints w.defaultIntf.1).2.Number = some oerr →
          main w =
            [Effect.NewContext, Effect.OpenDeviceWithVIDPID 0x16C0 0x0486,
              Effect.SetAutoDetach true, Effect.DefaultInterface,
              Effect.OutEndpoint (getEndpoints w.defaultIntf.1).2.Number,
              Effect.logPrintf "Error preparing OUT endpoint (%v): %v"
                [Arg.addr (getEndpoints w.defaultIntf.1).2.Address, Arg.err (some oerr)],
              Effect.osExit 1]) ∧
        (w.outEndpoint (getEndpoints w.defaultIntf.1).2.Number = none →
          main w =
            [Effect.NewContext, Effect.OpenDeviceWithVIDPID 0x16C0 0x0486,
              Effect.SetAutoDetach true, Effect.DefaultInterface,
              Effect.OutEndpoint (getEndpoints w.defaultIntf.1).2.Number, Effect.goWrite] ++
            interleave w.sched (write w.outWrite 0 w.stdin).trace
              [Effect.InEndpoint 0,
                Effect.logPrintf "Error preparing IN endpoint (%v): %v"
                  [Arg.addr 0, Arg.err (some err)],
                Effect.osExit 1] ∧
          (3 ≤ w.sched.count false →
            ∃ code, (main w).getLast? = some (Effect.osExit code)) ∧
          (w.sched = false :: false :: false :: w.sched.drop 3 →
            main w =
              [Effect.NewContext, Effect.OpenDeviceWithVIDPID 0x16C0 0x0486,
                Effect.SetAutoDetach true, Effect.DefaultInterface,
                Effect.OutEndpoint (getEndpoints w.defaultIntf.1).2.Number, Effect.goWrite,
                Effect.InEndpoint 0,
                Effect.logPrintf "Error preparing IN endpoint (%v): %v"
                  [Arg.addr 0, Arg.err (some err)],
                Effect.osExit 1]))) := by
  have habs := main_unresolved_absences w hdev hclaim
  refine ⟨habs.1, ?_⟩
  intro hno err herr
  obtain ⟨h1, h2, h3⟩ := habs.2 hno err herr
  have hz := getEndpoints_no_in _ hno
  refine ⟨h1, h2, h3, ?_, ?_⟩
  · intro oerr hoerr
    simp [main, mainClaimed, hdev, hclaim, hoerr, fatalf, unwind, VID, PID]
  · intro hok
    have hmr : mainRead w (getEndpoints w.defaultIntf.1).1
        [Effect.done, Effect.devClose, Effect.ctxClose] =
        [Effect.InEndpoint 0,
          Effect.logPrintf "Error preparing IN endpoint (%v): %v"
            [Arg.addr 0, Arg.err (some err)],
          Effect.osExit 1] := by
      simp [mainRead, hz, EndpointDesc.zero, herr, fatalf, unwind]
    have hmain : main w =
        [Effect.NewContext, Effect.OpenDeviceWithVIDPID 0x16C0 0x0486,
          Effect.SetAutoDetach true, Effect.DefaultInterface,
          Effect.OutEndpoint (getEndpoints w.defaultIntf.1).2.Number, Effect.goWrite] ++
        interleave w.sched (write w.outWrite 0 w.stdin).trace
          [Effect.InEndpoint 0,
            Effect.logPrintf "Error preparing IN endpoint (%v): %v"
              [Arg.addr 0, Arg.err (some err)],
            Effect.osExit 1] := by
      rw [← hmr]
      simp [main, mainClaimed, hdev, hclaim, hok, VID, PID]
    refine ⟨hmain, ?_, ?_⟩
    · intro hcount
      obtain ⟨c, hc⟩ := interleave_ends_in_exit w.sched (write w.outWrite 0 w.stdin).trace
        [Effect.InEndpoint 0,
          Effect.logPrintf "Error preparing IN endpoint (%v): %v"
            [Arg.addr 0, Arg.err (some err)],
          Effect.osExit 1] 1 rfl hcount
      refine ⟨c, ?_⟩
      rw [hmain, List.getLast?_append, hc]
      rfl
    · intro hs
      rw [hmain, hs]
      simp [interleave, Effect.isExit]

/-- The amended C7 at a device with an IN endpoint only whose `OutEndpoint(0)`
fails, and at a device with an OUT endpoint only whose `InEndpoint(0)` fails
after the relay has written. -/
theorem main_unresolved_descriptor_witness :
    main { noOutWorld with outEndpoint := fun _ => some "endpoint not found" } =
      [Effect.NewContext, Effect.OpenDeviceWithVIDPID 0x16C0 0x0486,
        Effect.SetAutoDetach true, Effect.DefaultInterface, Effect.OutEndpoint 0,
        Effect.logPrintf "Error preparing OUT endpoint (%v): %v"
          [Arg.addr 0, Arg.err (some "endpoint not found")],
        Effect.osExit 1] ∧
    ∃ code, (main noInWorld).getLast? = some (Effect.osExit code) :=
  ⟨(main_unresolved_descriptor
      { noOutWorld with outEndpoint := fun _ => some "endpoint not found" }
      rfl rfl).1 (by decide) "endpoint not found" rfl,
   ((((main_unresolved_descriptor noInWorld rfl rfl).2 (by decide) "endpoint not found"
      rfl).2.2.2.2) rfl).2.1 (by decide)⟩

end Rawhid
